import Mathlib

/-!
Verification of the iroh transfer benchmark (client.rs and server.rs).

The code is embedded shallowly:

* Byte strings become `List Nat` (each entry a byte value).
* `usize` becomes `Nat` together with the constant `usizeMax`; a value of
  type `usize` in the code is represented by a natural number that is at
  most `usizeMax`.
* `f64` quantities (elapsed seconds, bandwidth samples) are modelled as
  exact rationals `ℚ`; `f64::INFINITY` and `f64::NEG_INFINITY`, which the
  code uses only as fold seeds, become `⊤ : WithTop ℚ` and `⊥ : WithBot ℚ`.
* Fallible operations return `Except`; external transport behaviour
  (whether a write succeeds, what bytes a receive stream yields, how much
  time elapsed) enters as explicit parameters of the embedded functions.
* The straight-line async functions are embedded as pure functions that
  also return the list of observable events they performed, in order.
-/

namespace IrohBenchmark

/-- Largest value of the 64-bit `usize` type. -/
def usizeMax : Nat := 2 ^ 64 - 1

/-- Bytes of the acknowledgment literal sent by the server and expected by
the client: the 8 ASCII bytes of the string constant used in
`send.write_all` (server.rs line 60) and in the `assert_eq` comparison
(client.rs line 105). -/
def ackBytes : List Nat := [114, 101, 99, 101, 105, 118, 101, 100]

/-- Bytes of the ALPN protocol identifier constant shared by client.rs line
20 and server.rs line 19. -/
def ALPN : List Nat :=
  [105, 114, 111, 104, 45, 101, 120, 97, 109, 112, 108, 101, 47, 112, 114,
   105, 110, 116, 47, 48]

/-- Semantics of the quinn `RecvStream::read_to_end(size_limit)` call used
on both sides: it reads the whole stream to exhaustion and returns its
bytes, failing (with `ReadToEndError::TooLong`) when the stream holds more
than `size_limit` bytes; it never truncates. -/
def readToEnd (sizeLimit : Nat) (stream : List Nat) : Except Unit (List Nat) :=
  if stream.length ≤ sizeLimit then Except.ok stream else Except.error ()

/-- The payload the client writes in `benchmark_transfer`:
`vec![0u8; size]` (client.rs line 94), written in full by `write_all`. -/
def clientPayload (size : Nat) : List Nat := List.replicate size 0

/-- The bandwidth computation of client.rs line 110:
`(size as f64 / total_time.as_secs_f64()) * 8.0 / 1_000_000.0`. -/
def bandwidth (size elapsed : ℚ) : ℚ := size / elapsed * 8 / 1000000

/-- The bandwidth formula as the specification words it:
`payloadBytes * 8 / elapsedSeconds / 1,000,000`. -/
def bandwidthSpec (size elapsed : ℚ) : ℚ := size * 8 / elapsed / 1000000

/-- The constant `mb` of client.rs line 54: `1024 * 1024`. -/
def mb : Nat := 1024 * 1024

/-- The fixed payload-size list of the driver, client.rs line 55:
`vec![1 * mb, 2 * mb, 5 * mb, 10 * mb]`. -/
def sizes : List Nat := [1 * mb, 2 * mb, 5 * mb, 10 * mb]

/-- The fixed iteration count of client.rs line 62. -/
def iterations : Nat := 5

/-- The average of client.rs line 77:
`bandwidths.iter().sum::<f64>() / iterations as f64`. Note the divisor is
the fixed iteration count, not the length of the sample list. -/
def avg_bw (bandwidths : List ℚ) : ℚ := bandwidths.sum / (iterations : ℚ)

/-- The minimum of client.rs line 78:
`bandwidths.iter().fold(f64::INFINITY, |a, &b| a.min(b))`, with the
infinity seed modelled as the top element. -/
def min_bw (bandwidths : List ℚ) : WithTop ℚ :=
  bandwidths.foldl (fun (a : WithTop ℚ) (b : ℚ) => min a ((b : ℚ) : WithTop ℚ)) ⊤

/-- The maximum of client.rs line 79:
`bandwidths.iter().fold(f64::NEG_INFINITY, |a, &b| a.max(b))`, with the
negative-infinity seed modelled as the bottom element. -/
def max_bw (bandwidths : List ℚ) : WithBot ℚ :=
  bandwidths.foldl (fun (a : WithBot ℚ) (b : ℚ) => max a ((b : ℚ) : WithBot ℚ)) ⊥

/-! ### Client transfer session (benchmark_transfer, client.rs lines 90-113) -/

/-- How one client transfer can fail, separating transport errors (the `?`
operator on `open_bi`, `write_all`, `finish`, `read_to_end`), the
`ReadToEndError::TooLong` failure of `read_to_end(8)`, and the
`assert_eq` panic on a wrong acknowledgment. -/
inductive ClientErr where
  | transport : ClientErr
  | tooLong : ClientErr
  | ackMismatch : ClientErr
deriving DecidableEq, Repr

/-- Environment of one client transfer: the externally determined outcomes
of the transport operations performed by `benchmark_transfer`.
`ackStream` is the full byte sequence the receive half yields before
end-of-stream (`none`: the read itself fails at transport level). -/
structure ClientConn where
  openBiOk : Bool
  writeOk : Bool
  finishOk : Bool
  ackStream : Option (List Nat)
deriving DecidableEq, Repr

/-- Embedding of `benchmark_transfer` (client.rs lines 90-113): open a
bidirectional stream, build `vec![0u8; size]`, write it all, half-close
the send side with `finish`, read the acknowledgment with
`read_to_end(8)`, assert it equals `b"received"`, and return the
bandwidth computed from the elapsed time. -/
def benchmark_transfer (c : ClientConn) (size : Nat) (elapsed : ℚ) :
    Except ClientErr ℚ :=
  if !c.openBiOk then Except.error ClientErr.transport
  else if !c.writeOk then Except.error ClientErr.transport
  else if !c.finishOk then Except.error ClientErr.transport
  else
    match c.ackStream with
    | none => Except.error ClientErr.transport
    | some reply =>
      match readToEnd 8 reply with
      | Except.error _ => Except.error ClientErr.tooLong
      | Except.ok ack =>
        if ack = ackBytes then Except.ok (bandwidth size elapsed)
        else Except.error ClientErr.ackMismatch

/-! ### Server session handler (PrintBytes::accept, server.rs lines 47-65) -/

/-- Observable steps of one server handler invocation, in the order the
handler performs them. -/
inductive SEv where
  | connected : SEv
  | resolvedRemote : Nat → SEv
  | acceptedBi : SEv
  | drained : Nat → SEv
  | recordedCount : Nat → SEv
  | wroteAck : List Nat → SEv
  | finishedSend : SEv
  | awaitedClosed : SEv
deriving DecidableEq, Repr

/-- Environment of one server handler invocation: the externally
determined outcomes of its transport operations. `recvStream` is the
byte sequence the receive half yields before end-of-stream (`none`: the
read fails at transport level). -/
structure ServerConn where
  connectOk : Bool
  remoteId : Option Nat
  acceptBiOk : Bool
  recvStream : Option (List Nat)
  writeOk : Bool
  finishOk : Bool
deriving DecidableEq, Repr

/-- Embedding of `PrintBytes::accept` (server.rs lines 47-65): await the
connection, resolve the remote node id, accept the first bidirectional
stream, drain the receive half with `read_to_end(usize::MAX)`, record the
byte count, write the acknowledgment `b"received"`, half-close the send
side, and await the fully-closed connection. Returns the ordered event
trace together with the handler result. -/
def printBytesAccept (c : ServerConn) : List SEv × Except Unit Unit :=
  if !c.connectOk then ([], Except.error ())
  else
    match c.remoteId with
    | none => ([SEv.connected], Except.error ())
    | some nid =>
      if !c.acceptBiOk then
        ([SEv.connected, SEv.resolvedRemote nid], Except.error ())
      else
        match c.recvStream with
        | none =>
          ([SEv.connected, SEv.resolvedRemote nid, SEv.acceptedBi],
           Except.error ())
        | some stream =>
          match readToEnd usizeMax stream with
          | Except.error _ =>
            ([SEv.connected, SEv.resolvedRemote nid, SEv.acceptedBi],
             Except.error ())
          | Except.ok data =>
            if !c.writeOk then
              ([SEv.connected, SEv.resolvedRemote nid, SEv.acceptedBi,
                SEv.drained data.length, SEv.recordedCount data.length],
               Except.error ())
            else if !c.finishOk then
              ([SEv.connected, SEv.resolvedRemote nid, SEv.acceptedBi,
                SEv.drained data.length, SEv.recordedCount data.length,
                SEv.wroteAck ackBytes],
               Except.error ())
            else
              ([SEv.connected, SEv.resolvedRemote nid, SEv.acceptedBi,
                SEv.drained data.length, SEv.recordedCount data.length,
                SEv.wroteAck ackBytes, SEv.finishedSend, SEv.awaitedClosed],
               Except.ok ())

/-- A server environment in which every transport operation succeeds and
the receive half yields `stream`. -/
def goodServerConn (nid : Nat) (stream : List Nat) : ServerConn :=
  ⟨true, some nid, true, some stream, true, true⟩

/-! ### Client benchmark driver (connect_side, client.rs lines 50-88) -/

/-- Observable steps of the client driver, in order: binding the
endpoint, and per size and iteration connecting (with the protocol
identifier), running the transfer, recording the sample, closing the
connection, sleeping between iterations, and emitting the statistics of
one size. -/
inductive DEv where
  | bindEndpoint : DEv
  | connect : List Nat → Nat → Nat → DEv
  | transferOk : Nat → Nat → DEv
  | transferFail : Nat → Nat → DEv
  | record : Nat → Nat → DEv
  | close : Nat → Nat → DEv
  | sleepMs : Nat → DEv
  | statsEv : Nat → ℚ → WithTop ℚ → WithBot ℚ → DEv
deriving DecidableEq, Repr

/-- The inner iteration loop of client.rs lines 65-74, over the list of
remaining iteration indices: connect, run one transfer (its outcome given
by the oracle `f`, which abstracts `benchmark_transfer` together with the
network), push the bandwidth sample, close the connection, and sleep 100
ms when the index is not the last one. The `?` operator on a failed
transfer aborts the loop. -/
def runItersList (f : Nat → Nat → Except Unit ℚ) (size : Nat) :
    List Nat → List DEv × Except Unit (List ℚ)
  | [] => ([], Except.ok [])
  | i :: rest =>
    match f size i with
    | Except.error e =>
      ([DEv.connect ALPN size i, DEv.transferFail size i], Except.error e)
    | Except.ok bw =>
      let evs := [DEv.connect ALPN size i, DEv.transferOk size i,
        DEv.record size i, DEv.close size i]
      let evs2 := if i < iterations - 1 then evs ++ [DEv.sleepMs 100] else evs
      let r := runItersList f size rest
      (evs2 ++ r.1, Except.map (fun l => bw :: l) r.2)

/-- The iteration loop for one payload size: `for i in 0..iterations`. -/
def runSize (f : Nat → Nat → Except Unit ℚ) (size : Nat) :
    List DEv × Except Unit (List ℚ) :=
  runItersList f size (List.range iterations)

/-- One pass of the outer size loop body (client.rs lines 59-84): run the
iterations for the size and, on success, feed the collected samples to
the statistics reducer. -/
def runSizeWithStats (f : Nat → Nat → Except Unit ℚ) (size : Nat) :
    List DEv × Except Unit Unit :=
  match runSize f size with
  | (t, Except.error e) => (t, Except.error e)
  | (t, Except.ok bws) =>
    (t ++ [DEv.statsEv size (avg_bw bws) (min_bw bws) (max_bw bws)],
     Except.ok ())

/-- The outer size loop of client.rs lines 59-85; a failed size aborts
the remaining sizes via the `?` operator. -/
def runSizes (f : Nat → Nat → Except Unit ℚ) :
    List Nat → List DEv × Except Unit Unit
  | [] => ([], Except.ok ())
  | size :: rest =>
    match runSizeWithStats f size with
    | (t, Except.error e) => (t, Except.error e)
    | (t, Except.ok _) =>
      let r := runSizes f rest
      (t ++ r.1, r.2)

/-- Embedding of `connect_side` (client.rs lines 50-88): bind the
endpoint, then run the size loop over the fixed size list. -/
def connect_side (f : Nat → Nat → Except Unit ℚ) :
    List DEv × Except Unit Unit :=
  let r := runSizes f sizes
  (DEv.bindEndpoint :: r.1, r.2)

/-! ### Argument handling (main, client.rs lines 31-48) -/

/-- Value of one hexadecimal digit, as accepted by `hex::decode`. -/
def hexVal (ch : Char) : Option Nat :=
  if 48 ≤ ch.toNat ∧ ch.toNat ≤ 57 then some (ch.toNat - 48)
  else if 97 ≤ ch.toNat ∧ ch.toNat ≤ 102 then some (ch.toNat - 87)
  else if 65 ≤ ch.toNat ∧ ch.toNat ≤ 70 then some (ch.toNat - 55)
  else none

/-- Semantics of `hex::decode` on a character list: each pair of hex
digits becomes one byte; an odd-length input or a non-hex character is an
error. -/
def hexDecodeChars : List Char → Except Unit (List Nat)
  | [] => Except.ok []
  | [_] => Except.error ()
  | hi :: lo :: rest =>
    match hexVal hi, hexVal lo with
    | some h, some l =>
      match hexDecodeChars rest with
      | Except.ok bs => Except.ok ((16 * h + l) :: bs)
      | Except.error e => Except.error e
    | _, _ => Except.error ()

/-- Semantics of `hex::decode` on the public-key argument string. -/
def hexDecode (s : String) : Except Unit (List Nat) :=
  hexDecodeChars s.toList

/-- The three ways the argument phase of `main` can fail: the hex decode
(client.rs line 36), the `try_into` length check (lines 37-38), and
`PublicKey::from_bytes` (line 41). -/
inductive ArgErr where
  | hexErr : ArgErr
  | lengthErr : ArgErr
  | keyErr : ArgErr
deriving DecidableEq, Repr

/-- The argument phase of `main` (client.rs lines 36-41): decode the hex
string, require exactly 32 bytes, and parse the public key. The external
`PublicKey::from_bytes` validity check enters as the predicate
`validKey`. -/
def parseArgs (pk : String) (validKey : List Nat → Bool) :
    Except ArgErr (List Nat) :=
  match hexDecode pk with
  | Except.error _ => Except.error ArgErr.hexErr
  | Except.ok bytes =>
    if bytes.length = 32 then
      if validKey bytes then Except.ok bytes else Except.error ArgErr.keyErr
    else Except.error ArgErr.lengthErr

/-- Embedding of `main` (client.rs lines 31-48): the argument phase runs
first and only on success is `connect_side` reached; an argument error
produces no driver events at all. -/
def clientMain (pk : String) (validKey : List Nat → Bool)
    (f : Nat → Nat → Except Unit ℚ) : List DEv × Except Unit Unit :=
  match parseArgs pk validKey with
  | Except.error _ => ([], Except.error ())
  | Except.ok _ => connect_side f

/-! ### Claim theorems (first group) -/

/-- Claim C9: the fixed payload-size list is exactly
[1048576, 2097152, 5242880, 10485760] bytes, strictly increasing, and
every element is strictly positive (so every transfer invocation made by
the driver has a positive size). -/
theorem sizes_exact_increasing_positive :
    sizes = [1048576, 2097152, 5242880, 10485760] ∧
    List.Chain' (fun a b => a < b) sizes ∧
    ∀ s, s ∈ sizes → 0 < s := by
  refine ⟨by decide, ?_, ?_⟩
  · norm_num [sizes, mb, List.chain'_cons, List.chain'_singleton]
  · intro s hs
    fin_cases hs <;> decide

/-- Witness for C9 at the first list element. -/
theorem sizes_exact_increasing_positive_witness :
    (0:Nat) < 1048576 := by
  have h := sizes_exact_increasing_positive.2.2 1048576
  exact h (by decide)

/-- Claim C2: for every elapsed time greater than zero, the bandwidth the
code computes, `(size / elapsed) * 8 / 1000000`, equals the value the
specification states, `size * 8 / elapsed / 1000000`, exactly. -/
theorem bandwidth_eq_spec (size elapsed : ℚ) (h : 0 < elapsed) :
    bandwidth size elapsed = bandwidthSpec size elapsed := by
  unfold bandwidth bandwidthSpec
  field_simp

/-- Witness for C2 at size 1048576 bytes and elapsed 2 seconds. -/
theorem bandwidth_eq_spec_witness :
    bandwidth 1048576 2 = bandwidthSpec 1048576 2 :=
  bandwidth_eq_spec 1048576 2 (by norm_num)

/-- Claim C1: for every payload size S greater than zero (and within the
`usize` range, as `size` has type `usize` in the code), the client writes
exactly S bytes, and a server handler whose receive stream carries those
bytes drains them to exhaustion and records a byte count equal to S. -/
theorem transfer_session_byte_count (S nid : Nat) (hpos : 0 < S)
    (hrange : S ≤ usizeMax) :
    (clientPayload S).length = S ∧
    printBytesAccept (goodServerConn nid (clientPayload S)) =
      ([SEv.connected, SEv.resolvedRemote nid, SEv.acceptedBi,
        SEv.drained S, SEv.recordedCount S, SEv.wroteAck ackBytes,
        SEv.finishedSend, SEv.awaitedClosed], Except.ok ()) := by
  have hlen : (clientPayload S).length = S := List.length_replicate S 0
  refine ⟨hlen, ?_⟩
  simp [printBytesAccept, goodServerConn, readToEnd, hlen, hrange]

/-- Witness for C1 at S = 1048576 (1 MiB) and remote id 0. -/
theorem transfer_session_byte_count_witness :
    (clientPayload 1048576).length = 1048576 ∧
    printBytesAccept (goodServerConn 0 (clientPayload 1048576)) =
      ([SEv.connected, SEv.resolvedRemote 0, SEv.acceptedBi,
        SEv.drained 1048576, SEv.recordedCount 1048576,
        SEv.wroteAck ackBytes, SEv.finishedSend, SEv.awaitedClosed],
       Except.ok ()) :=
  transfer_session_byte_count 1048576 0 (by decide) (by decide)

/-- Claim C3: the acknowledgment the server ever writes is exactly the 8
ASCII bytes of the string constant, and a client transfer whose transport
operations succeed and whose reply fits the 8-byte read succeeds exactly
when the reply equals that constant, failing the assertion otherwise. -/
theorem ack_exact_and_client_succeeds_iff (c : ClientConn) (r : List Nat)
    (size : Nat) (t : ℚ) (hob : c.openBiOk = true) (hw : c.writeOk = true)
    (hf : c.finishOk = true) (ha : c.ackStream = some r)
    (hlen : r.length ≤ 8) :
    ackBytes.length = 8 ∧
    ackBytes = (String.toList "received").map (fun ch => ch.toNat) ∧
    (∀ s : ServerConn, ∀ b : List Nat,
      SEv.wroteAck b ∈ (printBytesAccept s).1 → b = ackBytes) ∧
    ((∃ bw, benchmark_transfer c size t = Except.ok bw) ↔ r = ackBytes) ∧
    (r ≠ ackBytes →
      benchmark_transfer c size t = Except.error ClientErr.ackMismatch) := by
  refine ⟨by decide, by decide, ?_, ?_, ?_⟩
  · intro s b hmem
    obtain ⟨co, rid, ab, rs, wo, fo⟩ := s
    cases co <;> cases ab <;> cases wo <;> cases fo <;>
      cases rid <;> cases rs <;>
      simp_all [printBytesAccept, readToEnd] <;>
      split at hmem <;> simp_all
  · by_cases hr : r = ackBytes
    · subst hr
      simp [benchmark_transfer, readToEnd, hob, hw, hf, ha, ackBytes]
    · simp [benchmark_transfer, readToEnd, hob, hw, hf, ha, hlen, hr]
  · intro hr
    simp [benchmark_transfer, readToEnd, hob, hw, hf, ha, hlen, hr]

/-- Witness for C3: a fully successful client environment whose reply is
the acknowledgment constant yields a successful session. -/
theorem ack_exact_and_client_succeeds_iff_witness :
    (∃ bw, benchmark_transfer ⟨true, true, true, some ackBytes⟩ 1 1 =
      Except.ok bw) ↔ ackBytes = ackBytes :=
  (ack_exact_and_client_succeeds_iff ⟨true, true, true, some ackBytes⟩
    ackBytes 1 1 rfl rfl rfl rfl (by decide)).2.2.2.1

/-- Claim C10: the client reads the acknowledgment with a hard 8-byte
limit: a reply longer than 8 bytes makes the read itself fail (no
truncation ever occurs), while a reply of at most 8 bytes that differs
from the constant fails the equality assertion instead. -/
theorem ack_read_limit_no_truncation (c : ClientConn) (r : List Nat)
    (size : Nat) (t : ℚ) (hob : c.openBiOk = true) (hw : c.writeOk = true)
    (hf : c.finishOk = true) (ha : c.ackStream = some r) :
    (8 < r.length →
      benchmark_transfer c size t = Except.error ClientErr.tooLong) ∧
    (r.length ≤ 8 → r ≠ ackBytes →
      benchmark_transfer c size t = Except.error ClientErr.ackMismatch) ∧
    (∀ a, readToEnd 8 r = Except.ok a → a = r) := by
  refine ⟨?_, ?_, ?_⟩
  · intro hlong
    simp [benchmark_transfer, readToEnd, hob, hw, hf, ha,
      Nat.not_le_of_lt hlong]
  · intro hlen hr
    simp [benchmark_transfer, readToEnd, hob, hw, hf, ha, hlen, hr]
  · intro a hok
    unfold readToEnd at hok
    split at hok
    · cases hok
      rfl
    · cases hok

/-- Every trace the server handler can produce is one of the prefixes of
the full successful step sequence, cut at the step that failed. -/
lemma printBytesAccept_trace_cases (s : ServerConn) :
    (printBytesAccept s).1 = [] ∨
    (printBytesAccept s).1 = [SEv.connected] ∨
    (∃ nid, (printBytesAccept s).1 = [SEv.connected, SEv.resolvedRemote nid]) ∨
    (∃ nid, (printBytesAccept s).1 =
      [SEv.connected, SEv.resolvedRemote nid, SEv.acceptedBi]) ∨
    (∃ nid n, (printBytesAccept s).1 =
      [SEv.connected, SEv.resolvedRemote nid, SEv.acceptedBi,
       SEv.drained n, SEv.recordedCount n]) ∨
    (∃ nid n, (printBytesAccept s).1 =
      [SEv.connected, SEv.resolvedRemote nid, SEv.acceptedBi,
       SEv.drained n, SEv.recordedCount n, SEv.wroteAck ackBytes]) ∨
    (∃ nid n, (printBytesAccept s).1 =
      [SEv.connected, SEv.resolvedRemote nid, SEv.acceptedBi,
       SEv.drained n, SEv.recordedCount n, SEv.wroteAck ackBytes,
       SEv.finishedSend, SEv.awaitedClosed]) := by
  obtain ⟨co, rid, ab, rs, wo, fo⟩ := s
  unfold printBytesAccept
  cases co
  · simp
  · cases rid with
    | none => simp
    | some nid =>
      cases ab
      · simp
      · cases rs with
        | none => simp
        | some stream =>
          simp only [Bool.not_true, Bool.false_eq_true, if_false,
            Bool.not_false, if_true]
          cases hre : readToEnd usizeMax stream with
          | error e => simp
          | ok data =>
            cases wo
            · simp
            · cases fo <;> simp

/-- Claim C6: a fully successful server handler performs exactly the step
sequence connect, resolve remote identity, accept the bidirectional
stream, drain the receive half (of any length within the usize range),
record the byte count, write the acknowledgment, half-close, await full
close, in that order; in every possible run the acknowledgment is only
written strictly after the drain step; and each handler of a batch is a
function of its own connection alone, so an error in one terminates only
that handler. -/
theorem server_handler_step_order :
    (∀ nid stream, stream.length ≤ usizeMax →
      printBytesAccept (goodServerConn nid stream) =
        ([SEv.connected, SEv.resolvedRemote nid, SEv.acceptedBi,
          SEv.drained stream.length, SEv.recordedCount stream.length,
          SEv.wroteAck ackBytes, SEv.finishedSend, SEv.awaitedClosed],
         Except.ok ())) ∧
    (∀ s : ServerConn, ∀ b : List Nat,
      SEv.wroteAck b ∈ (printBytesAccept s).1 →
      ∃ t1 t2 n, (printBytesAccept s).1 = t1 ++ SEv.drained n :: t2 ∧
        SEv.wroteAck b ∈ t2) ∧
    (∀ cs : List ServerConn, ∀ i : Nat,
      (cs.map printBytesAccept)[i]? = (cs[i]?).map printBytesAccept) := by
  refine ⟨?_, ?_, ?_⟩
  · intro nid stream hle
    simp [printBytesAccept, goodServerConn, readToEnd, hle]
  · intro s b hmem
    rcases printBytesAccept_trace_cases s with h | h | ⟨nid, h⟩ | ⟨nid, h⟩ |
      ⟨nid, n, h⟩ | ⟨nid, n, h⟩ | ⟨nid, n, h⟩ <;> rw [h] at hmem ⊢ <;>
      simp at hmem
    · subst hmem
      exact ⟨[SEv.connected, SEv.resolvedRemote nid, SEv.acceptedBi],
        [SEv.recordedCount n, SEv.wroteAck ackBytes], n, rfl, by simp⟩
    · subst hmem
      exact ⟨[SEv.connected, SEv.resolvedRemote nid, SEv.acceptedBi],
        [SEv.recordedCount n, SEv.wroteAck ackBytes, SEv.finishedSend,
         SEv.awaitedClosed], n, rfl, by simp⟩
  · intro cs i
    simp [List.getElem?_map]

/-- Witness for C6: the successful step sequence at remote id 0 with an
empty payload. -/
theorem server_handler_step_order_witness :
    printBytesAccept (goodServerConn 0 []) =
      ([SEv.connected, SEv.resolvedRemote 0, SEv.acceptedBi,
        SEv.drained (List.length (α := Nat) []),
        SEv.recordedCount (List.length (α := Nat) []),
        SEv.wroteAck ackBytes, SEv.finishedSend, SEv.awaitedClosed],
       Except.ok ()) :=
  server_handler_step_order.1 0 [] (by decide)

/-- Witness for C10: a 9-byte reply makes the acknowledgment read fail
with the too-long error. -/
theorem ack_read_limit_no_truncation_witness :
    benchmark_transfer ⟨true, true, true, some (List.replicate 9 0)⟩ 1 1 =
      Except.error ClientErr.tooLong :=
  (ack_read_limit_no_truncation ⟨true, true, true, some (List.replicate 9 0)⟩
    (List.replicate 9 0) 1 1 rfl rfl rfl rfl).1 (by decide)

/-! ### Statistics reducer lemmas -/

/-- Folding the minimum over the coercions into `WithTop` equals the
coercion of the fold of the minimum. -/
lemma foldl_min_coe (xs : List ℚ) (a : ℚ) :
    xs.foldl (fun (u : WithTop ℚ) (b : ℚ) => min u ((b : ℚ) : WithTop ℚ))
      ((a : ℚ) : WithTop ℚ) = ((xs.foldl min a : ℚ) : WithTop ℚ) := by
  induction xs generalizing a with
  | nil => rfl
  | cons y ys ih =>
    simp only [List.foldl_cons]
    rw [← WithTop.coe_min, ih]

/-- Folding the maximum over the coercions into `WithBot` equals the
coercion of the fold of the maximum. -/
lemma foldl_max_coe (xs : List ℚ) (a : ℚ) :
    xs.foldl (fun (u : WithBot ℚ) (b : ℚ) => max u ((b : ℚ) : WithBot ℚ))
      ((a : ℚ) : WithBot ℚ) = ((xs.foldl max a : ℚ) : WithBot ℚ) := by
  induction xs generalizing a with
  | nil => rfl
  | cons y ys ih =>
    simp only [List.foldl_cons]
    rw [← WithBot.coe_max, ih]

/-- The fold of the minimum is at most its seed. -/
lemma foldl_min_le_init (xs : List ℚ) (a : ℚ) : xs.foldl min a ≤ a := by
  induction xs generalizing a with
  | nil => exact le_refl a
  | cons y ys ih => exact le_trans (ih (min a y)) (min_le_left a y)

/-- The fold of the minimum is at most every list element. -/
lemma foldl_min_le_mem (xs : List ℚ) (a x : ℚ) (hx : x ∈ xs) :
    xs.foldl min a ≤ x := by
  induction xs generalizing a with
  | nil => cases hx
  | cons y ys ih =>
    rcases List.mem_cons.mp hx with h | h
    · subst h
      exact le_trans (foldl_min_le_init ys (min a x)) (min_le_right a x)
    · exact ih (min a y) h

/-- The fold of the minimum is the seed or one of the list elements. -/
lemma foldl_min_mem (xs : List ℚ) (a : ℚ) :
    xs.foldl min a = a ∨ xs.foldl min a ∈ xs := by
  induction xs generalizing a with
  | nil => exact Or.inl rfl
  | cons y ys ih =>
    rcases ih (min a y) with h | h
    · rcases min_choice a y with hm | hm
      · exact Or.inl (by rw [List.foldl_cons, h, hm])
      · exact Or.inr (by rw [List.foldl_cons, h, hm]; exact List.mem_cons_self y ys)
    · exact Or.inr (List.mem_cons_of_mem y h)

/-- The fold of the maximum is at least its seed. -/
lemma le_foldl_max_init (xs : List ℚ) (a : ℚ) : a ≤ xs.foldl max a := by
  induction xs generalizing a with
  | nil => exact le_refl a
  | cons y ys ih => exact le_trans (le_max_left a y) (ih (max a y))

/-- The fold of the maximum is at least every list element. -/
lemma le_foldl_max_mem (xs : List ℚ) (a x : ℚ) (hx : x ∈ xs) :
    x ≤ xs.foldl max a := by
  induction xs generalizing a with
  | nil => cases hx
  | cons y ys ih =>
    rcases List.mem_cons.mp hx with h | h
    · subst h
      exact le_trans (le_max_right a x) (le_foldl_max_init ys (max a x))
    · exact ih (max a y) h

/-- The fold of the maximum is the seed or one of the list elements. -/
lemma foldl_max_mem (xs : List ℚ) (a : ℚ) :
    xs.foldl max a = a ∨ xs.foldl max a ∈ xs := by
  induction xs generalizing a with
  | nil => exact Or.inl rfl
  | cons y ys ih =>
    rcases ih (max a y) with h | h
    · rcases max_choice a y with hm | hm
      · exact Or.inl (by rw [List.foldl_cons, h, hm])
      · exact Or.inr (by rw [List.foldl_cons, h, hm]; exact List.mem_cons_self y ys)
    · exact Or.inr (List.mem_cons_of_mem y h)

/-- A lower bound on every element gives a lower bound on the sum. -/
lemma length_mul_le_sum (l : List ℚ) (c : ℚ) (h : ∀ x ∈ l, c ≤ x) :
    (l.length : ℚ) * c ≤ l.sum := by
  induction l with
  | nil => simp
  | cons y ys ih =>
    have hy : c ≤ y := h y (List.mem_cons_self y ys)
    have hys : (ys.length : ℚ) * c ≤ ys.sum :=
      ih (fun x hx => h x (List.mem_cons_of_mem y hx))
    simp only [List.sum_cons, List.length_cons]
    push_cast
    nlinarith

/-- An upper bound on every element gives an upper bound on the sum. -/
lemma sum_le_length_mul (l : List ℚ) (c : ℚ) (h : ∀ x ∈ l, x ≤ c) :
    l.sum ≤ (l.length : ℚ) * c := by
  induction l with
  | nil => simp
  | cons y ys ih =>
    have hy : y ≤ c := h y (List.mem_cons_self y ys)
    have hys : ys.sum ≤ (ys.length : ℚ) * c :=
      ih (fun x hx => h x (List.mem_cons_of_mem y hx))
    simp only [List.sum_cons, List.length_cons]
    push_cast
    nlinarith

/-- Claim C4: for a non-empty sample list with one entry per iteration,
the reducer output average is the arithmetic mean of the samples, the
output minimum and maximum are the least and greatest sample, and
minimum ≤ average ≤ maximum. -/
theorem stats_reducer_correct (l : List ℚ) (hne : l ≠ [])
    (hlen : l.length = iterations) :
    ∃ mn mx : ℚ,
      min_bw l = (mn : WithTop ℚ) ∧ max_bw l = (mx : WithBot ℚ) ∧
      mn ∈ l ∧ mx ∈ l ∧ (∀ x ∈ l, mn ≤ x ∧ x ≤ mx) ∧
      avg_bw l = l.sum / (l.length : ℚ) ∧
      mn ≤ avg_bw l ∧ avg_bw l ≤ mx := by
  match l, hne with
  | x :: xs, _ =>
    refine ⟨xs.foldl min x, xs.foldl max x, ?_, ?_, ?_, ?_, ?_, ?_, ?_, ?_⟩
    · unfold min_bw
      rw [List.foldl_cons, min_eq_right (le_top (a := ((x : ℚ) : WithTop ℚ)))]
      exact foldl_min_coe xs x
    · unfold max_bw
      rw [List.foldl_cons, max_eq_right (bot_le (a := ((x : ℚ) : WithBot ℚ)))]
      exact foldl_max_coe xs x
    · rcases foldl_min_mem xs x with h | h
      · rw [h]; exact List.mem_cons_self x xs
      · exact List.mem_cons_of_mem x h
    · rcases foldl_max_mem xs x with h | h
      · rw [h]; exact List.mem_cons_self x xs
      · exact List.mem_cons_of_mem x h
    · intro z hz
      rcases List.mem_cons.mp hz with h | h
      · subst h
        exact ⟨foldl_min_le_init xs z, le_foldl_max_init xs z⟩
      · exact ⟨foldl_min_le_mem xs x z h, le_foldl_max_mem xs x z h⟩
    · unfold avg_bw
      rw [hlen]
    · have hlow : ∀ z ∈ x :: xs, xs.foldl min x ≤ z := by
        intro z hz
        rcases List.mem_cons.mp hz with h | h
        · subst h; exact foldl_min_le_init xs z
        · exact foldl_min_le_mem xs x z h
      have hsum := length_mul_le_sum (x :: xs) (xs.foldl min x) hlow
      have hlen5 : ((x :: xs).length : ℚ) = 5 := by
        rw [hlen]; norm_num [iterations]
      unfold avg_bw
      rw [show ((iterations : Nat) : ℚ) = 5 by norm_num [iterations]]
      rw [hlen5] at hsum
      linarith
    · have hup : ∀ z ∈ x :: xs, z ≤ xs.foldl max x := by
        intro z hz
        rcases List.mem_cons.mp hz with h | h
        · subst h; exact le_foldl_max_init xs z
        · exact le_foldl_max_mem xs x z h
      have hsum := sum_le_length_mul (x :: xs) (xs.foldl max x) hup
      have hlen5 : ((x :: xs).length : ℚ) = 5 := by
        rw [hlen]; norm_num [iterations]
      unfold avg_bw
      rw [show ((iterations : Nat) : ℚ) = 5 by norm_num [iterations]]
      rw [hlen5] at hsum
      linarith

/-- Witness for C4 on the sample list [1, 2, 3, 4, 5]. -/
theorem stats_reducer_correct_witness :
    ∃ mn mx : ℚ,
      min_bw [1, 2, 3, 4, 5] = (mn : WithTop ℚ) ∧
      max_bw [1, 2, 3, 4, 5] = (mx : WithBot ℚ) ∧
      mn ∈ [(1 : ℚ), 2, 3, 4, 5] ∧ mx ∈ [(1 : ℚ), 2, 3, 4, 5] ∧
      (∀ x ∈ [(1 : ℚ), 2, 3, 4, 5], mn ≤ x ∧ x ≤ mx) ∧
      avg_bw [1, 2, 3, 4, 5] =
        List.sum [(1 : ℚ), 2, 3, 4, 5] / (List.length [(1 : ℚ), 2, 3, 4, 5] : ℚ) ∧
      mn ≤ avg_bw [1, 2, 3, 4, 5] ∧ avg_bw [1, 2, 3, 4, 5] ≤ mx :=
  stats_reducer_correct [1, 2, 3, 4, 5] (by decide) (by decide)

/-- Claim C5: for every payload size, when every transfer succeeds the
driver performs exactly 5 iterations, each a fresh connect (with the
protocol identifier), one transfer, one recorded sample, and an explicit
close; a 100 ms sleep separates consecutive iterations and none follows
the last; and exactly the 5 collected samples are fed to the statistics
reducer. -/
theorem driver_five_iterations (f : Nat → Nat → Except Unit ℚ) (g : Nat → ℚ)
    (size : Nat) (hok : ∀ i, i < iterations → f size i = Except.ok (g i)) :
    runSizeWithStats f size =
      ([DEv.connect ALPN size 0, DEv.transferOk size 0, DEv.record size 0,
        DEv.close size 0, DEv.sleepMs 100,
        DEv.connect ALPN size 1, DEv.transferOk size 1, DEv.record size 1,
        DEv.close size 1, DEv.sleepMs 100,
        DEv.connect ALPN size 2, DEv.transferOk size 2, DEv.record size 2,
        DEv.close size 2, DEv.sleepMs 100,
        DEv.connect ALPN size 3, DEv.transferOk size 3, DEv.record size 3,
        DEv.close size 3, DEv.sleepMs 100,
        DEv.connect ALPN size 4, DEv.transferOk size 4, DEv.record size 4,
        DEv.close size 4,
        DEv.statsEv size (avg_bw [g 0, g 1, g 2, g 3, g 4])
          (min_bw [g 0, g 1, g 2, g 3, g 4])
          (max_bw [g 0, g 1, g 2, g 3, g 4])],
       Except.ok ()) ∧
    iterations = 5 ∧ [g 0, g 1, g 2, g 3, g 4].length = iterations := by
  have h0 := hok 0 (by decide)
  have h1 := hok 1 (by decide)
  have h2 := hok 2 (by decide)
  have h3 := hok 3 (by decide)
  have h4 := hok 4 (by decide)
  have hr : List.range iterations = [0, 1, 2, 3, 4] := by decide
  refine ⟨?_, rfl, rfl⟩
  unfold runSizeWithStats runSize
  rw [hr]
  simp [runItersList, h0, h1, h2, h3, h4, iterations, Except.map]

/-- Witness for C5 with constant unit bandwidth samples. -/
theorem driver_five_iterations_witness :
    runSizeWithStats (fun _ _ => Except.ok 1) 1048576 =
      ([DEv.connect ALPN 1048576 0, DEv.transferOk 1048576 0,
        DEv.record 1048576 0, DEv.close 1048576 0, DEv.sleepMs 100,
        DEv.connect ALPN 1048576 1, DEv.transferOk 1048576 1,
        DEv.record 1048576 1, DEv.close 1048576 1, DEv.sleepMs 100,
        DEv.connect ALPN 1048576 2, DEv.transferOk 1048576 2,
        DEv.record 1048576 2, DEv.close 1048576 2, DEv.sleepMs 100,
        DEv.connect ALPN 1048576 3, DEv.transferOk 1048576 3,
        DEv.record 1048576 3, DEv.close 1048576 3, DEv.sleepMs 100,
        DEv.connect ALPN 1048576 4, DEv.transferOk 1048576 4,
        DEv.record 1048576 4, DEv.close 1048576 4,
        DEv.statsEv 1048576 (avg_bw [1, 1, 1, 1, 1])
          (min_bw [1, 1, 1, 1, 1]) (max_bw [1, 1, 1, 1, 1])],
       Except.ok ()) ∧
    iterations = 5 ∧
    List.length [(1 : ℚ), 1, 1, 1, 1] = iterations :=
  driver_five_iterations (fun _ _ => Except.ok 1) (fun _ => 1) 1048576
    (fun _ _ => rfl)

/-- Claim C8: a peer identity string that is not valid hex or whose
decoded length differs from 32 bytes fails the client run in the argument
phase, before the endpoint is bound or any connection is attempted; a
string decoding to exactly 32 bytes that form a valid public key passes
the argument phase. -/
theorem arg_phase_gates_network (pk : String) (validKey : List Nat → Bool)
    (f : Nat → Nat → Except Unit ℚ) :
    ((hexDecode pk = Except.error () ∨
      (∃ b, hexDecode pk = Except.ok b ∧ b.length ≠ 32)) →
      (clientMain pk validKey f).2 = Except.error () ∧
      (clientMain pk validKey f).1 = [] ∧
      DEv.bindEndpoint ∉ (clientMain pk validKey f).1 ∧
      (∀ a s i, DEv.connect a s i ∉ (clientMain pk validKey f).1)) ∧
    (∀ b, hexDecode pk = Except.ok b → b.length = 32 → validKey b = true →
      parseArgs pk validKey = Except.ok b) := by
  constructor
  · intro h
    rcases h with h | ⟨b, hb, hne⟩
    · simp [clientMain, parseArgs, h]
    · simp [clientMain, parseArgs, hb, hne]
  · intro b hb h32 hv
    simp [parseArgs, hb, h32, hv]

/-- Witness for C8: the string zz is not valid hex, so the client run
fails with an empty event trace. -/
theorem arg_phase_gates_network_witness :
    (clientMain "zz" (fun _ => true) (fun _ _ => Except.ok 1)).2 =
      Except.error () ∧
    (clientMain "zz" (fun _ => true) (fun _ _ => Except.ok 1)).1 = [] ∧
    DEv.bindEndpoint ∉
      (clientMain "zz" (fun _ => true) (fun _ _ => Except.ok 1)).1 ∧
    (∀ a s i, DEv.connect a s i ∉
      (clientMain "zz" (fun _ => true) (fun _ _ => Except.ok 1)).1) :=
  (arg_phase_gates_network "zz" (fun _ => true) (fun _ _ => Except.ok 1)).1
    (Or.inl rfl)

/-! ### Driver failure-propagation lemmas -/

/-- The iteration loop never emits a statistics event. -/
lemma runItersList_no_stats (f : Nat → Nat → Except Unit ℚ) (size : Nat)
    (is : List Nat) (s : Nat) (a : ℚ) (mn : WithTop ℚ) (mx : WithBot ℚ) :
    DEv.statsEv s a mn mx ∉ (runItersList f size is).1 := by
  induction is with
  | nil => simp [runItersList]
  | cons i rest ih =>
    cases hf : f size i with
    | error e => simp [runItersList, hf]
    | ok bw =>
      by_cases hlt : i < iterations - 1 <;> simp [runItersList, hf, hlt, ih]

/-- Every connect event of the iteration loop names the loop size and one
of the loop iteration indices. -/
lemma runItersList_connect_mem (f : Nat → Nat → Except Unit ℚ) (size : Nat)
    (is : List Nat) (a : List Nat) (s j : Nat)
    (h : DEv.connect a s j ∈ (runItersList f size is).1) :
    s = size ∧ j ∈ is := by
  induction is with
  | nil => simp [runItersList] at h
  | cons i rest ih =>
    cases hf : f size i with
    | error e =>
      rw [runItersList, hf] at h
      simp at h
      exact ⟨h.2.1, by rw [h.2.2]; exact List.mem_cons_self i rest⟩
    | ok bw =>
      rw [runItersList, hf] at h
      by_cases hlt : i < iterations - 1 <;> simp [hlt] at h <;>
        rcases h with ⟨ha, hs, hj⟩ | h
      · exact ⟨hs, by rw [hj]; exact List.mem_cons_self i rest⟩
      · exact ⟨(ih h).1, List.mem_cons_of_mem i (ih h).2⟩
      · exact ⟨hs, by rw [hj]; exact List.mem_cons_self i rest⟩
      · exact ⟨(ih h).1, List.mem_cons_of_mem i (ih h).2⟩

/-- A successful iteration loop emits no failure event. -/
lemma runItersList_ok_no_fail (f : Nat → Nat → Except Unit ℚ) (size : Nat) :
    ∀ is : List Nat, ∀ bws : List ℚ,
      (runItersList f size is).2 = Except.ok bws →
      ∀ s j, DEv.transferFail s j ∉ (runItersList f size is).1 := by
  intro is
  induction is with
  | nil => intro bws _ s j; simp [runItersList]
  | cons i rest ih =>
    intro bws hok s j
    cases hf : f size i with
    | error e => simp only [runItersList, hf] at hok; cases hok
    | ok bw =>
      simp only [runItersList, hf] at hok ⊢
      cases hr : (runItersList f size rest).2 with
      | error e => rw [hr] at hok; simp [Except.map] at hok
      | ok tl =>
        have hni := ih tl hr s j
        by_cases hlt : i < iterations - 1 <;> simp [hlt, hni]

/-- A successful iteration loop means the oracle succeeded at every
index of the loop. -/
lemma runItersList_ok_oracle (f : Nat → Nat → Except Unit ℚ) (size : Nat) :
    ∀ is : List Nat, ∀ bws : List ℚ,
      (runItersList f size is).2 = Except.ok bws →
      ∀ j ∈ is, ∃ bw, f size j = Except.ok bw := by
  intro is
  induction is with
  | nil => intro bws _ j hj; cases hj
  | cons i rest ih =>
    intro bws hok j hj
    cases hf : f size i with
    | error e => simp only [runItersList, hf] at hok; cases hok
    | ok bw =>
      simp only [runItersList, hf] at hok
      rcases List.mem_cons.mp hj with h | h
      · exact ⟨bw, h ▸ hf⟩
      · cases hr : (runItersList f size rest).2 with
        | error e => rw [hr] at hok; simp [Except.map] at hok
        | ok tl => exact ih tl hr j h

/-- A failed iteration loop over distinct indices stops at the first
failing index: its trace ends at the failed connect-and-transfer pair,
holds no other failure event, and never attempted that pair before. -/
lemma runItersList_error (f : Nat → Nat → Except Unit ℚ) (size : Nat) :
    ∀ is : List Nat, is.Nodup →
      (runItersList f size is).2 = Except.error () →
      ∃ j t, j ∈ is ∧ f size j = Except.error () ∧
        (runItersList f size is).1 =
          t ++ [DEv.connect ALPN size j, DEv.transferFail size j] ∧
        (∀ u v, DEv.transferFail u v ∉ t) ∧
        DEv.connect ALPN size j ∉ t := by
  intro is
  induction is with
  | nil => intro _ herr; rw [runItersList] at herr; cases herr
  | cons i rest ih =>
    intro hnd herr
    cases hf : f size i with
    | error e =>
      cases e
      refine ⟨i, [], List.mem_cons_self i rest, hf, ?_, by simp, by simp⟩
      simp [runItersList, hf]
    | ok bw =>
      simp only [runItersList, hf] at herr ⊢
      cases hr : (runItersList f size rest).2 with
      | ok tl => rw [hr] at herr; simp [Except.map] at herr
      | error e =>
        cases e
        have hni : i ∉ rest := (List.nodup_cons.mp hnd).1
        obtain ⟨j, t, hjmem, hjf, htr, hnofail, hnoconn⟩ :=
          ih (List.nodup_cons.mp hnd).2 hr
        have hji : j ≠ i := fun hc => hni (hc ▸ hjmem)
        by_cases hlt : i < iterations - 1
        · refine ⟨j, [DEv.connect ALPN size i, DEv.transferOk size i,
            DEv.record size i, DEv.close size i, DEv.sleepMs 100] ++ t,
            List.mem_cons_of_mem i hjmem, hjf, ?_, ?_, ?_⟩
          · simp only [hlt, if_true, htr]
            simp
          · intro u v
            simp [hnofail u v]
          · simp [hnoconn, hji]
        · refine ⟨j, [DEv.connect ALPN size i, DEv.transferOk size i,
            DEv.record size i, DEv.close size i] ++ t,
            List.mem_cons_of_mem i hjmem, hjf, ?_, ?_, ?_⟩
          · simp only [hlt, if_false, htr]
            simp
          · intro u v
            simp [hnofail u v]
          · simp [hnoconn, hji]

/-- A failed size pass is exactly a failed iteration loop: same trace,
and no statistics event was emitted. -/
lemma runSizeWithStats_error (f : Nat → Nat → Except Unit ℚ) (size : Nat)
    (herr : (runSizeWithStats f size).2 = Except.error ()) :
    (runSize f size).2 = Except.error () ∧
    (runSizeWithStats f size).1 = (runSize f size).1 := by
  rcases hr : runSize f size with ⟨t, r⟩
  cases r with
  | error e =>
    cases e
    constructor
    · rfl
    · simp only [runSizeWithStats, hr]
  | ok bws =>
    simp only [runSizeWithStats, hr] at herr
    cases herr

/-- A successful size pass appends exactly one statistics event, built
from the collected samples, to the iteration trace, and every iteration
of the pass had a successful transfer. -/
lemma runSizeWithStats_ok (f : Nat → Nat → Except Unit ℚ) (size : Nat)
    (hok : (runSizeWithStats f size).2 = Except.ok ()) :
    ∃ bws, (runSize f size).2 = Except.ok bws ∧
      (runSizeWithStats f size).1 = (runSize f size).1 ++
        [DEv.statsEv size (avg_bw bws) (min_bw bws) (max_bw bws)] ∧
      ∀ j ∈ List.range iterations, ∃ bw, f size j = Except.ok bw := by
  rcases hr : runSize f size with ⟨t, r⟩
  cases r with
  | error e => simp only [runSizeWithStats, hr] at hok; cases hok
  | ok bws =>
    refine ⟨bws, rfl, ?_, ?_⟩
    · simp only [runSizeWithStats, hr]
    · intro j hj
      exact runItersList_ok_oracle f size (List.range iterations) bws
        (by rw [show runItersList f size (List.range iterations) =
          runSize f size from rfl, hr]) j hj

/-- A failed outer size loop over distinct sizes stops at the first
failing iteration of the first failing size: the trace ends at the
failed pair, that pair was never attempted before, no other failure
event occurs, and no statistics event for the failing size occurs. -/
lemma runSizes_error (f : Nat → Nat → Except Unit ℚ) :
    ∀ L : List Nat, L.Nodup → (runSizes f L).2 = Except.error () →
      ∃ s j t, s ∈ L ∧ j < iterations ∧ f s j = Except.error () ∧
        (runSizes f L).1 =
          t ++ [DEv.connect ALPN s j, DEv.transferFail s j] ∧
        (∀ u v, DEv.transferFail u v ∉ t) ∧
        DEv.connect ALPN s j ∉ t ∧
        (∀ a mn mx, DEv.statsEv s a mn mx ∉ t) := by
  intro L
  induction L with
  | nil => intro _ herr; rw [runSizes] at herr; cases herr
  | cons size rest ih =>
    intro hnd herr
    rcases hs : runSizeWithStats f size with ⟨thead, rhead⟩
    cases rhead with
    | error e =>
      cases e
      have h2 : (runSizeWithStats f size).2 = Except.error () := by
        rw [hs]
      obtain ⟨h3, h4⟩ := runSizeWithStats_error f size h2
      obtain ⟨j, t, hjmem, hjf, htr, hnofail, hnoconn⟩ :=
        runItersList_error f size (List.range iterations)
          (List.nodup_range iterations) h3
      refine ⟨size, j, t, List.mem_cons_self size rest,
        List.mem_range.mp hjmem, hjf, ?_, hnofail, hnoconn, ?_⟩
      · rw [runSizes, hs]
        have : thead = (runSizeWithStats f size).1 := by rw [hs]
        rw [this, h4]
        exact htr
      · intro a mn mx hmem
        have hmem2 : DEv.statsEv size a mn mx ∈
            (runItersList f size (List.range iterations)).1 := by
          rw [htr]
          exact List.mem_append_left _ hmem
        exact runItersList_no_stats f size (List.range iterations)
          size a mn mx hmem2
    | ok u =>
      cases u
      have hok2 : (runSizeWithStats f size).2 = Except.ok () := by rw [hs]
      have herr2 : (runSizes f rest).2 = Except.error () := by
        rw [runSizes, hs] at herr
        exact herr
      obtain ⟨s, j, t, hsmem, hjlt, hjf, htr, hnofail, hnoconn, hnostats⟩ :=
        ih (List.nodup_cons.mp hnd).2 herr2
      obtain ⟨bws, hbws, htrace0, horacle⟩ := runSizeWithStats_ok f size hok2
      have hsne : s ≠ size := by
        intro hc
        obtain ⟨bw, hbw⟩ := horacle j (List.mem_range.mpr hjlt)
        rw [hc] at hjf
        rw [hjf] at hbw
        cases hbw
      refine ⟨s, j, thead ++ t, List.mem_cons_of_mem size hsmem, hjlt, hjf,
        ?_, ?_, ?_, ?_⟩
      · rw [runSizes, hs]
        simp only []
        rw [htr, List.append_assoc]
      · intro u v hmem
        rcases List.mem_append.mp hmem with h | h
        · have hth : thead = (runSizeWithStats f size).1 := by rw [hs]
          rw [hth, htrace0] at h
          rcases List.mem_append.mp h with h | h
          · exact runItersList_ok_no_fail f size (List.range iterations) bws
              hbws u v h
          · simp at h
        · exact hnofail u v h
      · intro hmem
        rcases List.mem_append.mp hmem with h | h
        · have hth : thead = (runSizeWithStats f size).1 := by rw [hs]
          rw [hth, htrace0] at h
          rcases List.mem_append.mp h with h | h
          · exact hsne (runItersList_connect_mem f size
              (List.range iterations) ALPN s j h).1
          · simp at h
        · exact hnoconn h
      · intro a mn mx hmem
        rcases List.mem_append.mp hmem with h | h
        · have hth : thead = (runSizeWithStats f size).1 := by rw [hs]
          rw [hth, htrace0] at h
          rcases List.mem_append.mp h with h | h
          · exact runItersList_no_stats f size (List.range iterations)
              s a mn mx h
          · simp at h
            exact hsne h.1
        · exact hnostats a mn mx h

/-- Claim C7: when any single iteration transfer fails, the whole
benchmark run aborts right there: the run result is the error, the event
trace ends at the failed connect-and-transfer pair, that pair was never
attempted before (no retry), no other transfer failed, and no statistics
were produced for the size in progress. -/
theorem iteration_failure_aborts_run (f : Nat → Nat → Except Unit ℚ)
    (herr : (connect_side f).2 = Except.error ()) :
    ∃ s j t, s ∈ sizes ∧ j < iterations ∧ f s j = Except.error () ∧
      (connect_side f).1 =
        DEv.bindEndpoint ::
          (t ++ [DEv.connect ALPN s j, DEv.transferFail s j]) ∧
      (∀ u v, DEv.transferFail u v ∉ t) ∧
      DEv.connect ALPN s j ∉ t ∧
      (∀ a mn mx, DEv.statsEv s a mn mx ∉ t) := by
  have h2 : (runSizes f sizes).2 = Except.error () := herr
  obtain ⟨s, j, t, hsmem, hjlt, hjf, htr, hnofail, hnoconn, hnostats⟩ :=
    runSizes_error f sizes (by decide) h2
  exact ⟨s, j, t, hsmem, hjlt, hjf, by rw [show (connect_side f).1 =
    DEv.bindEndpoint :: (runSizes f sizes).1 from rfl, htr], hnofail,
    hnoconn, hnostats⟩

/-- Witness for C7: an oracle that fails every transfer aborts the run at
the very first iteration of the first size. -/
theorem iteration_failure_aborts_run_witness :
    ∃ s j t, s ∈ sizes ∧ j < iterations ∧
      (fun _ _ => (Except.error () : Except Unit ℚ)) s j =
        Except.error () ∧
      (connect_side (fun _ _ => Except.error ())).1 =
        DEv.bindEndpoint ::
          (t ++ [DEv.connect ALPN s j, DEv.transferFail s j]) ∧
      (∀ u v, DEv.transferFail u v ∉ t) ∧
      DEv.connect ALPN s j ∉ t ∧
      (∀ a mn mx, DEv.statsEv s a mn mx ∉ t) :=
  iteration_failure_aborts_run (fun _ _ => Except.error ()) rfl

end IrohBenchmark
